import Mathlib

/-!
Verification of the HTML poster editor (src/app/components/HTMLEditor.tsx).

The development shallowly embeds the program's core:
* a model of the browser's permissive HTML parsing and serialization
  (`tokenize`, `buildAux`, `serializeForest`), used by the source through
  `innerHTML` assignment/read and `DOMParser.parseFromString`;
* the source's `HTMLSanitizer.sanitize`, `HTMLParser.parse` /
  `HTMLParser.parseNode`, `HTMLExporter.export` (here `exportHtml`, since
  `export` is a Lean keyword);
* the editor state and its commands (`saveHistory`, `undo`, `redo`,
  `addElement`, `deleteElement`, `updateProperty`, drag updates).

Modelling notes (the browser is an external collaborator of the source):
* The tokenizer/tree-builder is a faithful model of permissive HTML parsing
  for the fragment language this program emits and consumes: tags and
  attribute names are lowercased, void elements take no children, unmatched
  markup is tolerated, `<!...>` constructs are skipped.  Character-entity
  encoding/decoding, raw-text content modes and table/list tag fix-ups are
  not modelled; theorems quantifying over documents therefore carry
  explicit "benign" side conditions excluding the unmodelled characters
  and tag names.
* `getComputedStyle` is modelled as returning the empty string for every
  property: the source only calls it on elements of a `DOMParser` document,
  which has no browsing context, so every computed value serializes empty.
* `JSON.parse(JSON.stringify(x))` is modelled by a structural copy of the
  element record, which is provably the identity on the embedded values.
-/

namespace PosterEditor

/-- A DOM node of the working tree: an element with a tag, attributes in
document order, and children, or a text node. -/
inductive Node where
  | text (s : String)
  | elem (tag : String) (attrs : List (String × String)) (kids : List Node)
deriving Repr

/-- Tokens produced by the HTML tokenizer model. -/
inductive Tok where
  | openT (tag : String) (attrs : List (String × String)) (self : Bool)
  | closeT (tag : String)
  | textT (s : String)
deriving Repr, DecidableEq

/-- HTML whitespace. -/
def isSpaceC (c : Char) : Bool :=
  c = ' ' || c = '\n' || c = '\t' || c = '\r'

/-- Character-level lowercasing (`String.toLower`, kept executable down to
the kernel). -/
def lowerChars (cs : List Char) : List Char :=
  cs.map Char.toLower

/-- Character-level uppercasing (`String.toUpper`). -/
def upperChars (cs : List Char) : List Char :=
  cs.map Char.toUpper

/-- Tokenizer modes (a small state machine over the input characters). -/
inductive TMode where
  | txt (acc : List Char)
  | tagOpen
  | bang
  | closing (acc : List Char)
  | tagLabel (acc : List Char)
  | beforeAttr (tag : String) (attrs : List (String × String))
  | attrLabel (tag : String) (attrs : List (String × String)) (acc : List Char)
  | valStart (tag : String) (attrs : List (String × String)) (key : String)
  | valQuoted (tag : String) (attrs : List (String × String)) (key : String) (acc : List Char)
  | valBare (tag : String) (attrs : List (String × String)) (key : String) (acc : List Char)
  | selfSlash (tag : String) (attrs : List (String × String))
deriving Repr, DecidableEq

/-- Emit a text token unless the accumulator is empty. -/
def flushTxt (acc : List Char) : List Tok :=
  if acc = [] then [] else [Tok.textT (String.mk acc)]

/-- One step of the HTML tokenizer model. -/
def step : TMode → Char → TMode × List Tok
  | .txt acc, c =>
    if c = '<' then (.tagOpen, flushTxt acc) else (.txt (acc ++ [c]), [])
  | .tagOpen, c =>
    if c = '/' then (.closing [], [])
    else if c = '!' then (.bang, [])
    else if c = '>' then (.txt [], [])
    else (.tagLabel [c], [])
  | .bang, c =>
    if c = '>' then (.txt [], []) else (.bang, [])
  | .closing acc, c =>
    if c = '>' then (.txt [], if acc = [] then [] else [Tok.closeT (String.mk (lowerChars acc))])
    else (.closing (acc ++ [c]), [])
  | .tagLabel acc, c =>
    if isSpaceC c then (.beforeAttr (String.mk (lowerChars acc)) [], [])
    else if c = '/' then (.selfSlash (String.mk (lowerChars acc)) [], [])
    else if c = '>' then (.txt [], [Tok.openT (String.mk (lowerChars acc)) [] false])
    else (.tagLabel (acc ++ [c]), [])
  | .beforeAttr t attrs, c =>
    if isSpaceC c then (.beforeAttr t attrs, [])
    else if c = '/' then (.selfSlash t attrs, [])
    else if c = '>' then (.txt [], [Tok.openT t attrs false])
    else (.attrLabel t attrs [c], [])
  | .attrLabel t attrs acc, c =>
    if c = '=' then (.valStart t attrs (String.mk (lowerChars acc)), [])
    else if isSpaceC c then (.beforeAttr t (attrs ++ [(String.mk (lowerChars acc), "")]), [])
    else if c = '/' then (.selfSlash t (attrs ++ [(String.mk (lowerChars acc), "")]), [])
    else if c = '>' then (.txt [], [Tok.openT t (attrs ++ [(String.mk (lowerChars acc), "")]) false])
    else (.attrLabel t attrs (acc ++ [c]), [])
  | .valStart t attrs k, c =>
    if c = '"' then (.valQuoted t attrs k [], [])
    else if isSpaceC c then (.valStart t attrs k, [])
    else if c = '>' then (.txt [], [Tok.openT t (attrs ++ [(k, "")]) false])
    else (.valBare t attrs k [c], [])
  | .valQuoted t attrs k acc, c =>
    if c = '"' then (.beforeAttr t (attrs ++ [(k, String.mk acc)]), [])
    else (.valQuoted t attrs k (acc ++ [c]), [])
  | .valBare t attrs k acc, c =>
    if isSpaceC c then (.beforeAttr t (attrs ++ [(k, String.mk acc)]), [])
    else if c = '>' then (.txt [], [Tok.openT t (attrs ++ [(k, String.mk acc)]) false])
    else (.valBare t attrs k (acc ++ [c]), [])
  | .selfSlash t attrs, c =>
    if c = '>' then (.txt [], [Tok.openT t attrs true])
    else (.beforeAttr t attrs, [])

/-- At end of input, only pending text is emitted (unterminated tags are
dropped, as in permissive HTML parsing). -/
def finishMode : TMode → List Tok
  | .txt acc => flushTxt acc
  | _ => []

/-- Run the tokenizer state machine over a character list. -/
def stepList (m : TMode) : List Char → TMode × List Tok
  | [] => (m, [])
  | c :: cs =>
    let p := step m c
    let q := stepList p.1 cs
    (q.1, p.2 ++ q.2)

/-- Tokenize a whole input. -/
def tokenize (cs : List Char) : List Tok :=
  let p := stepList (.txt []) cs
  p.2 ++ finishMode p.1

/-- HTML void elements: they never take children. -/
def voidTags : List String :=
  ["area", "base", "br", "col", "embed", "hr", "img", "input", "link",
   "meta", "param", "source", "track", "wbr"]

/-- An open element being built, with the children accumulated so far. -/
structure Frame where
  tag : String
  attrs : List (String × String)
  kids : List Node
deriving Repr

def Frame.push (f : Frame) (n : Node) : Frame :=
  { f with kids := f.kids ++ [n] }

def Frame.toNode (f : Frame) : Node :=
  .elem f.tag f.attrs f.kids

def hasOpenTag (t : String) : List Frame → Bool
  | [] => false
  | f :: fs => f.tag = t || hasOpenTag t fs

/-- At end of input, fold every still-open element into its parent. -/
def collapseAll (f : Frame) : List Frame → Frame
  | [] => f
  | g :: gs => collapseAll (g.push f.toNode) gs

/-- Close tag handling: fold open elements into their parents until the
frame whose tag matches is closed (the caller guarantees a match exists in
the stack). -/
def popClose (t : String) (f : Frame) : List Frame → Frame × List Frame
  | [] => (f, [])
  | g :: gs =>
    if f.tag = t then (g.push f.toNode, gs)
    else popClose t (g.push f.toNode) gs

/-- Tree construction from tokens: a stack of open elements, closed
permissively (a close tag pops to its nearest matching open element and is
ignored when no open element matches). -/
def buildAux : List Tok → Frame → List Frame → List Node
  | [], f, gs => (collapseAll f gs).kids
  | .textT s :: ts, f, gs => buildAux ts (f.push (.text s)) gs
  | .openT t a _ :: ts, f, gs =>
    if t ∈ voidTags then buildAux ts (f.push (.elem t a [])) gs
    else buildAux ts ⟨t, a, []⟩ (f :: gs)
  | .closeT t :: ts, f, gs =>
    if hasOpenTag t (f :: gs) then
      let p := popClose t f gs
      buildAux ts p.1 p.2
    else buildAux ts f gs

/-- Model of parsing an HTML string into a forest of nodes (the behaviour
of `innerHTML` assignment and, for this program's inputs, of
`DOMParser.parseFromString`). -/
def parseHTMLForest (s : String) : List Node :=
  buildAux (tokenize s.data) ⟨"", [], []⟩ []

/-- Serialize attributes back to markup. -/
def attrsHtml (attrs : List (String × String)) : String :=
  attrs.foldr (fun kv r => " " ++ kv.1 ++ "=\"" ++ kv.2 ++ "\"" ++ r) ""

mutual

/-- Model of serializing one node back to markup. -/
def serializeNode : Node → String
  | Node.text s => s
  | Node.elem t a cs =>
    if t ∈ voidTags then
      "<" ++ t ++ attrsHtml a ++ ">"
    else
      "<" ++ t ++ attrsHtml a ++ ">" ++ serializeForest cs ++ "</" ++ t ++ ">"

/-- Model of reading `innerHTML`: serialize a forest back to markup.
Character-entity escaping is not modelled (see the header comment). -/
def serializeForest : List Node → String
  | [] => ""
  | n :: ns => serializeNode n ++ serializeForest ns

end

/-- First attribute value for a name (`getAttribute`). -/
def getAttrVal (attrs : List (String × String)) (k : String) : Option String :=
  (attrs.find? (fun p => p.1 = k)).map (fun p => p.2)

/-- Substring test over characters. -/
def startsWithChars : List Char → List Char → Bool
  | [], _ => true
  | _ :: _, [] => false
  | p :: ps, c :: cs => p = c && startsWithChars ps cs

def hasSubChars (pat : List Char) : List Char → Bool
  | [] => startsWithChars pat []
  | c :: cs => startsWithChars pat (c :: cs) || hasSubChars pat cs

/-- `val.toLowerCase().includes("javascript:")` from the source. -/
def hasJsUrl (v : String) : Bool :=
  hasSubChars ("javascript:").data (lowerChars v.data)

/-- Tags whose whole subtree the sanitizer removes (source line 30). -/
def dangerousTags : List String :=
  ["script", "iframe", "object", "embed", "link", "style"]

mutual

/-- `dangerous.forEach(tag => temp.querySelectorAll(tag).forEach(el => el.remove()))`:
every element whose tag is in the dangerous list is removed with its whole
subtree (`querySelectorAll` matches at any depth; removing the root of a
dangerous subtree removes all of it). -/
def removeDangerousNode : Node → List Node
  | Node.text s => [Node.text s]
  | Node.elem t a cs =>
    if t ∈ dangerousTags then []
    else [Node.elem t a (removeDangerousForest cs)]

def removeDangerousForest : List Node → List Node
  | [] => []
  | n :: ns => removeDangerousNode n ++ removeDangerousForest ns

end

/-- URL-bearing attributes inspected by the sanitizer (source line 42). -/
def urlAttrs : List String := ["href", "src", "action"]

/-- Attribute cleanup of one element (source lines 35-48): drop every
attribute whose name starts with `on`, then drop `href`/`src`/`action`
attributes whose value contains `javascript:` case-insensitively. -/
def cleanAttrs (attrs : List (String × String)) : List (String × String) :=
  (attrs.filter (fun p => ¬ startsWithChars ("on").data p.1.data)).filter
    (fun p => ¬ (p.1 ∈ urlAttrs ∧ hasJsUrl p.2))

mutual

/-- `temp.querySelectorAll("*")` visits every remaining element. -/
def cleanAttrsNode : Node → Node
  | Node.text s => Node.text s
  | Node.elem t a cs => Node.elem t (cleanAttrs a) (cleanAttrsForest cs)

def cleanAttrsForest : List Node → List Node
  | [] => []
  | n :: ns => cleanAttrsNode n :: cleanAttrsForest ns

end

end PosterEditor

namespace HTMLSanitizer

open PosterEditor

/-- `HTMLSanitizer.sanitize` (source lines 26-51): parse into a detached
working tree, remove dangerous subtrees, clean attributes, serialize. -/
def sanitize (html : String) : String :=
  let temp := parseHTMLForest html
  let t1 := removeDangerousForest temp
  let t2 := cleanAttrsForest t1
  serializeForest t2

end HTMLSanitizer

namespace PosterEditor

/-- The editor's element record.  In the source this is a plain JS object;
`Text` elements carry `content`, `Image` elements carry `src`/`alt`.  The
embedding gives every element all fields (unused ones defaulting to `""`),
which is unobservable through the program's operations. -/
structure Element where
  id : String
  type : String
  content : String := ""
  src : String := ""
  alt : String := ""
  tagName : String
  style : List (String × String)
deriving Repr, DecidableEq

/-- JS `a || b` on strings: the empty string is falsy. -/
def jsOr (a b : String) : String :=
  if a = "" then b else a

/-- `{...m, [k]: v}` for the style maps: overwrite in place or append (JS
object spread keeps the insertion order of existing keys). -/
def setStyleKey : List (String × String) → String → String → List (String × String)
  | [], k, v => [(k, v)]
  | (k', v') :: rest, k, v =>
    if k' = k then (k, v) :: rest else (k', v') :: setStyleKey rest k v

/-- `k.replace(/([A-Z])/g, "-$1")` over characters. -/
def kebabChars : List Char → List Char
  | [] => []
  | c :: cs => if c.isUpper then '-' :: c :: kebabChars cs else c :: kebabChars cs

/-- `k.replace(/([A-Z])/g, "-$1").toLowerCase()` (source line 117). -/
def camelToKebab (s : String) : String :=
  String.mk ((kebabChars s.data).map Char.toLower)

/-- Split a character list on a separator character (`String.splitOn` for
a one-character separator). -/
def splitOnC (sep : Char) : List Char → List (List Char)
  | [] => [[]]
  | c :: cs =>
    if c = sep then [] :: splitOnC sep cs
    else
      match splitOnC sep cs with
      | [] => [[c]]
      | r :: rs => (c :: r) :: rs

/-- Rejoin character segments with a separator (`String.intercalate` for a
one-character separator). -/
def joinChars (sep : Char) : List (List Char) → List Char
  | [] => []
  | [p] => p
  | p :: ps => p ++ sep :: joinChars sep ps

/-- Trim surrounding whitespace (`String.trim`). -/
def trimChars (cs : List Char) : List Char :=
  ((cs.dropWhile isSpaceC).reverse.dropWhile isSpaceC).reverse

/-- Parse a `style="..."` attribute text into CSS declarations:
split on `;`, then each declaration on its first `:`, trimming. -/
def parseStyleDecls (s : String) : List (String × String) :=
  (splitOnC ';' s.data).filterMap (fun d =>
    match splitOnC ':' d with
    | [] => none
    | [_] => none
    | k :: vs =>
      let key := trimChars k
      if key = [] then none
      else some (String.mk key, String.mk (trimChars (joinChars ':' vs))))

/-- The inline declarations of a node (its `style` attribute). -/
def styleDecls (attrs : List (String × String)) : List (String × String) :=
  parseStyleDecls ((getAttrVal attrs "style").getD "")

/-- CSS gives the last declaration of a property the win. -/
def lookupDecl (decls : List (String × String)) (k : String) : String :=
  ((decls.reverse.find? (fun p => p.1 = k)).map (fun p => p.2)).getD ""

/-- `el.style.<jsProp>`: the inline style value of a node for a camel-cased
JS property name, the empty string when absent. -/
def inlineGet (attrs : List (String × String)) (jsProp : String) : String :=
  lookupDecl (styleDecls attrs) (camelToKebab jsProp)

/-- `window.getComputedStyle(el).<prop>`: the source only queries elements
of a `DOMParser` document, which has no browsing context, so every computed
property serializes to the empty string. -/
def computedGet (_attrs : List (String × String)) (_jsProp : String) : String :=
  ""

/-- `el.tagName`: uppercase for HTML elements. -/
def tagNameOf (t : String) : String := String.mk (upperChars t.data)

mutual

/-- The text content of one node. -/
def textContentNode : Node → String
  | Node.text s => s
  | Node.elem _ _ cs => textContentForest cs

/-- The text content of a forest (`el.textContent` concatenates the text
of all descendants in document order). -/
def textContentForest : List Node → String
  | [] => ""
  | n :: ns => textContentNode n ++ textContentForest ns

end

/-- `.children` of an element: its child elements, text nodes excluded. -/
def childElems : List Node → List Node
  | [] => []
  | Node.text _ :: ns => childElems ns
  | Node.elem t a cs :: ns => Node.elem t a cs :: childElems ns

/-- Does the class attribute carry the class token `poster`? -/
def hasClassPoster (attrs : List (String × String)) : Bool :=
  ((splitOnC ' ' ((getAttrVal attrs "class").getD "").data).map String.mk).contains "poster"

mutual

/-- `querySelector(".poster")` on one node (self, then descendants). -/
def findPosterNode : Node → Option Node
  | Node.text _ => none
  | Node.elem t a cs =>
    if hasClassPoster a then some (Node.elem t a cs) else findPoster cs

/-- `doc.querySelector(".poster")`: first match in document order. -/
def findPoster : List Node → Option Node
  | [] => none
  | n :: ns =>
    match findPosterNode n with
    | some m => some m
    | none => findPoster ns

end

mutual

/-- The first `body` element within one node. -/
def findBodyNode : Node → Option Node
  | Node.text _ => none
  | Node.elem t a cs =>
    if t = "body" then some (Node.elem t a cs) else findBody cs

/-- `doc.body`: the first `body` element in document order. -/
def findBody : List Node → Option Node
  | [] => none
  | n :: ns =>
    match findBodyNode n with
    | some m => some m
    | none => findBody ns

end

end PosterEditor

namespace HTMLParser

open PosterEditor

/-- `HTMLParser.parseNode` (source lines 69-108).  `now` stands for the
`Date.now()` timestamp used in the synthesized ids. -/
def parseNode (now : Nat) (n : Node) (i : Nat) : Element :=
  match n with
  | Node.text s =>
    -- `.children` never yields text nodes; kept total for the model.
    { id := "text-" ++ toString now ++ "-" ++ toString i, type := "text",
      content := s, tagName := "", style := [] }
  | Node.elem t attrs _kids =>
    let inl := fun (p : String) => inlineGet attrs p
    let cmp := fun (p : String) => computedGet attrs p
    let baseStyle : List (String × String) :=
      [("position", jsOr (inl "position") (jsOr (cmp "position") "absolute")),
       ("left", jsOr (inl "left") (jsOr (cmp "left") (toString (50 + i * 20) ++ "px"))),
       ("top", jsOr (inl "top") (jsOr (cmp "top") (toString (50 + i * 20) ++ "px"))),
       ("fontSize", jsOr (inl "fontSize") (jsOr (cmp "fontSize") "16px")),
       ("color", jsOr (inl "color") (jsOr (cmp "color") "#000000")),
       ("fontWeight", jsOr (inl "fontWeight") (jsOr (cmp "fontWeight") "normal")),
       ("textAlign", jsOr (inl "textAlign") (jsOr (cmp "textAlign") "left"))]
      ++ (if inl "width" ≠ "" then [("width", inl "width")] else [])
      ++ (if inl "height" ≠ "" then [("height", inl "height")] else [])
      ++ (if inl "background" ≠ "" then [("background", inl "background")] else [])
    if tagNameOf t = "IMG" then
      -- `{...baseStyle, width: el.style.width || "100px", height: "auto"}`
      { id := "img-" ++ toString now ++ "-" ++ toString i, type := "image",
        src := (getAttrVal attrs "src").getD "",
        alt := (getAttrVal attrs "alt").getD "",
        tagName := "img",
        style :=
          setStyleKey (setStyleKey baseStyle "width" (jsOr (inl "width") "100px"))
            "height" "auto" }
    else
      { id := "text-" ++ toString now ++ "-" ++ toString i, type := "text",
        content := textContentForest (match n with | Node.elem _ _ cs => cs | _ => []),
        tagName := String.mk (lowerChars (tagNameOf t).data),
        style := baseStyle }

/-- `HTMLParser.parse` (source lines 55-67): sanitize, parse, locate the
`.poster` container (falling back to the document body — `DOMParser`
always synthesizes one holding the content), map the container's child
elements through `parseNode`. -/
def parse (html : String) (now : Nat) : List Element :=
  let sanitized := HTMLSanitizer.sanitize html
  let docForest := parseHTMLForest sanitized
  let poster :=
    match findPoster docForest with
    | some p => p
    | none =>
      match findBody docForest with
      | some b => b
      | none => Node.elem "body" [] docForest
  let kids :=
    match poster with
    | Node.elem _ _ cs => childElems cs
    | Node.text _ => []
  (kids.enum).map (fun p => parseNode now p.2 p.1)

end HTMLParser

namespace HTMLExporter

open PosterEditor

end HTMLExporter

namespace PosterEditor

/-- One history snapshot: the elements plus the selection. -/
structure Snapshot where
  elements : List Element
  selectedId : Option String
deriving Repr, DecidableEq

/-- The editor's state variables (source lines 149-152). -/
structure EditorState where
  elements : List Element
  selectedId : Option String
  history : List Snapshot
  historyIndex : Int
deriving Repr, DecidableEq

/-- The initial state: `useState([])`, `useState(null)`, `useState([])`,
`useState(-1)`. -/
def initialState : EditorState :=
  { elements := [], selectedId := none, history := [], historyIndex := -1 }

/-- `JSON.parse(JSON.stringify(el))`: a fresh structural copy. -/
def deepCopyElement (el : Element) : Element :=
  { id := el.id, type := el.type, content := el.content, src := el.src,
    alt := el.alt, tagName := el.tagName,
    style := el.style.map (fun kv => (kv.1, kv.2)) }

/-- `saveHistory` (source lines 166-177): truncate beyond the current
index, append a deep-copied snapshot, point the index at it. -/
def saveHistory (s : EditorState) (newElements : List Element)
    (newSelectedId : Option String) : EditorState :=
  let newHistory := s.history.take (s.historyIndex + 1).toNat ++
    [{ elements := newElements.map deepCopyElement, selectedId := newSelectedId }]
  { s with history := newHistory, historyIndex := (newHistory.length : Int) - 1 }

/-- `handleImport` / `handlePaste` completion (source lines 184-189):
replace the elements with the parse result, clear the selection, push. -/
def importHtml (s : EditorState) (html : String) (now : Nat) : EditorState :=
  let parsed := HTMLParser.parse html now
  saveHistory { s with elements := parsed, selectedId := none } parsed none

/-- `addElement` (source lines 214-249). -/
def addElement (s : EditorState) (variant : String) (now : Nat) : EditorState :=
  let newEl : Element :=
    if variant = "text" then
      { id := "text-" ++ toString now, type := "text", content := "New Text",
        tagName := "p",
        style := [("position", "absolute"), ("left", "50px"), ("top", "50px"),
                  ("fontSize", "16px"), ("color", "#000000")] }
    else
      { id := "img-" ++ toString now, type := "image",
        src := "https://via.placeholder.com/150", alt := "Image",
        tagName := "img",
        style := [("position", "absolute"), ("left", "50px"), ("top", "50px"),
                  ("width", "150px"), ("height", "auto")] }
  let newElements := s.elements ++ [newEl]
  saveHistory { s with elements := newElements, selectedId := some newEl.id }
    newElements (some newEl.id)

/-- `deleteElement` (source lines 251-259).  `confirmed` is the user's
answer to the `confirm` prompt. -/
def deleteElement (s : EditorState) (confirmed : Bool) : EditorState :=
  match s.selectedId with
  | none => s
  | some sid =>
    if confirmed then
      let newElements := s.elements.filter (fun el => ¬ el.id = sid)
      saveHistory { s with elements := newElements, selectedId := none }
        newElements none
    else s

/-- JS computed-member assignment `{...el, [prop]: val}` for the three
top-level fields the source writes this way. -/
def setField (el : Element) (prop val : String) : Element :=
  if prop = "content" then { el with content := val }
  else if prop = "src" then { el with src := val }
  else { el with alt := val }

/-- `updateProperty` (source lines 261-273): no history push. -/
def updateProperty (s : EditorState) (prop val : String) : EditorState :=
  match s.selectedId with
  | none => s
  | some sid =>
    { s with elements := s.elements.map (fun el =>
        if el.id = sid then
          if prop = "content" ∨ prop = "src" ∨ prop = "alt" then
            setField el prop val
          else
            { el with style := setStyleKey el.style prop val }
        else el) }

/-- The drag `handleMove` update (source lines 316-328): clamp the pointer
delta to `[0, 670]` on both axes and update the dragged element's
`left`/`top`; no history push. -/
def dragMove (s : EditorState) (px py : Int) : EditorState :=
  match s.selectedId with
  | none => s
  | some sid =>
    let x := max 0 (min px 670)
    let y := max 0 (min py 670)
    { s with elements := s.elements.map (fun el =>
        if el.id = sid then
          { el with style :=
              (setStyleKey (setStyleKey el.style "left" (toString x ++ "px"))
                "top" (toString y ++ "px")) }
        else el) }

/-- The drag `handleUp` commit (source lines 331-336). -/
def dragEnd (s : EditorState) : EditorState :=
  saveHistory s s.elements s.selectedId

/-- `undo` (source lines 283-290).  The out-of-range branch is unreachable
from reachable states (the source indexes `history[historyIndex - 1]`
unconditionally). -/
def undo (s : EditorState) : EditorState :=
  if s.historyIndex > 0 then
    match s.history[(s.historyIndex - 1).toNat]? with
    | some st =>
      { s with elements := st.elements, selectedId := st.selectedId,
               historyIndex := s.historyIndex - 1 }
    | none => s
  else s

/-- `redo` (source lines 292-299). -/
def redo (s : EditorState) : EditorState :=
  if s.historyIndex < (s.history.length : Int) - 1 then
    match s.history[(s.historyIndex + 1).toNat]? with
    | some st =>
      { s with elements := st.elements, selectedId := st.selectedId,
               historyIndex := s.historyIndex + 1 }
    | none => s
  else s

/-- The editor's commands, for statements quantifying over operations. -/
inductive EditorOp where
  | importOp (html : String) (now : Nat)
  | addOp (variant : String) (now : Nat)
  | deleteOp (confirmed : Bool)
  | updateOp (prop val : String)
  | dragMoveOp (px py : Int)
  | dragEndOp
  | undoOp
  | redoOp
deriving Repr, DecidableEq

def applyOp (s : EditorState) : EditorOp → EditorState
  | .importOp html now => importHtml s html now
  | .addOp variant now => addElement s variant now
  | .deleteOp confirmed => deleteElement s confirmed
  | .updateOp prop val => updateProperty s prop val
  | .dragMoveOp px py => dragMove s px py
  | .dragEndOp => dragEnd s
  | .undoOp => undo s
  | .redoOp => redo s

end PosterEditor

namespace PosterEditor

/-! ### History and editor-command theorems -/

theorem deepCopyElement_eq (el : Element) : deepCopyElement el = el := by
  cases el
  simp [deepCopyElement]

theorem map_deepCopyElement (l : List Element) : l.map deepCopyElement = l := by
  induction l with
  | nil => rfl
  | cons a l ih => simp [deepCopyElement_eq, ih]

theorem saveHistory_history (s : EditorState) (els : List Element)
    (sid : Option String) :
    (saveHistory s els sid).history
      = s.history.take (s.historyIndex + 1).toNat
        ++ [{ elements := els, selectedId := sid }] := by
  simp [saveHistory, map_deepCopyElement]

theorem saveHistory_index (s : EditorState) (els : List Element)
    (sid : Option String) :
    (saveHistory s els sid).historyIndex
      = ((saveHistory s els sid).history.length : Int) - 1 := by
  simp [saveHistory]

theorem saveHistory_getLast (s : EditorState) (els : List Element)
    (sid : Option String) :
    (saveHistory s els sid).history.getLast?
      = some { elements := els, selectedId := sid } := by
  simp [saveHistory_history]

theorem saveHistory_preserves (s : EditorState) (els : List Element)
    (sid : Option String) (i : Nat) (h1 : i < s.history.length)
    (h2 : (i : Int) ≤ s.historyIndex) :
    (saveHistory s els sid).history[i]? = s.history[i]? := by
  have hn : i < (s.historyIndex + 1).toNat := by omega
  rw [saveHistory_history, List.getElem?_append_left, List.getElem?_take]
  · simp [hn]
  · rw [List.length_take]
    omega

theorem undo_noop (s : EditorState) (h : s.historyIndex ≤ 0) : undo s = s := by
  unfold undo
  rw [if_neg (by omega)]

theorem undo_steps_back (s : EditorState) (entry : Snapshot)
    (h0 : 0 < s.historyIndex)
    (h1 : s.history[(s.historyIndex - 1).toNat]? = some entry) :
    undo s = { s with elements := entry.elements, selectedId := entry.selectedId,
                      historyIndex := s.historyIndex - 1 } := by
  unfold undo
  rw [if_pos h0, h1]

theorem redo_noop (s : EditorState) (h : (s.history.length : Int) - 1 ≤ s.historyIndex) :
    redo s = s := by
  unfold redo
  rw [if_neg (by omega)]

theorem redo_steps_forward (s : EditorState) (entry : Snapshot)
    (h0 : s.historyIndex < (s.history.length : Int) - 1)
    (h1 : s.history[(s.historyIndex + 1).toNat]? = some entry) :
    redo s = { s with elements := entry.elements, selectedId := entry.selectedId,
                      historyIndex := s.historyIndex + 1 } := by
  unfold redo
  rw [if_pos h0, h1]

/-- C2: the history contract: `saveHistory` truncates beyond the current
index, appends the snapshot and points the index at it; `undo` steps back
exactly when the index is positive and is otherwise a no-op; `redo` steps
forward exactly when the index is below `length - 1` and is otherwise a
no-op; and the push/undo/redo scenario `push A; push B; push C;
undo = B; undo = A; undo no-op; redo B; redo C; push D after undo-to-A
discards B and C making redo a no-op`. -/
theorem history_push_undo_redo_contract :
    (∀ (s : EditorState) (els : List Element) (sid : Option String),
        (saveHistory s els sid).history
            = s.history.take (s.historyIndex + 1).toNat ++ [⟨els, sid⟩]
      ∧ (saveHistory s els sid).historyIndex
            = ((saveHistory s els sid).history.length : Int) - 1
      ∧ (saveHistory s els sid).history.getLast? = some ⟨els, sid⟩)
  ∧ (∀ s : EditorState, s.historyIndex ≤ 0 → undo s = s)
  ∧ (∀ (s : EditorState) (entry : Snapshot), 0 < s.historyIndex →
        s.history[(s.historyIndex - 1).toNat]? = some entry →
        undo s = { s with elements := entry.elements,
                          selectedId := entry.selectedId,
                          historyIndex := s.historyIndex - 1 })
  ∧ (∀ s : EditorState, (s.history.length : Int) - 1 ≤ s.historyIndex → redo s = s)
  ∧ (∀ (s : EditorState) (entry : Snapshot),
        s.historyIndex < (s.history.length : Int) - 1 →
        s.history[(s.historyIndex + 1).toNat]? = some entry →
        redo s = { s with elements := entry.elements,
                          selectedId := entry.selectedId,
                          historyIndex := s.historyIndex + 1 })
  ∧ (∀ A B C D : Snapshot,
        let s1 := saveHistory initialState A.elements A.selectedId
        let s2 := saveHistory s1 B.elements B.selectedId
        let s3 := saveHistory s2 C.elements C.selectedId
        let u1 := undo s3
        let u2 := undo u1
        (u1.elements = B.elements ∧ u1.historyIndex = 1)
      ∧ (u2.elements = A.elements ∧ u2.historyIndex = 0)
      ∧ undo u2 = u2
      ∧ ((redo u2).elements = B.elements ∧ (redo (redo u2)).elements = C.elements
          ∧ (redo (redo u2)).historyIndex = 2)
      ∧ (let s4 := saveHistory u2 D.elements D.selectedId
         s4.history = [⟨A.elements, A.selectedId⟩, ⟨D.elements, D.selectedId⟩]
       ∧ redo s4 = s4)) := by
  refine ⟨fun s els sid => ⟨saveHistory_history s els sid,
      saveHistory_index s els sid, saveHistory_getLast s els sid⟩,
    undo_noop, undo_steps_back, redo_noop, redo_steps_forward, ?_⟩
  intro A B C D s1 s2 s3 u1 u2
  have e1 : s1 = ⟨[], none, [⟨A.elements, A.selectedId⟩], 0⟩ := by
    show saveHistory initialState A.elements A.selectedId = _
    simp [saveHistory, initialState, map_deepCopyElement]
  have e2 : s2 = ⟨[], none,
      [⟨A.elements, A.selectedId⟩, ⟨B.elements, B.selectedId⟩], 1⟩ := by
    show saveHistory s1 B.elements B.selectedId = _
    rw [e1]
    simp [saveHistory, map_deepCopyElement]
  have e3 : s3 = ⟨[], none,
      [⟨A.elements, A.selectedId⟩, ⟨B.elements, B.selectedId⟩,
       ⟨C.elements, C.selectedId⟩], 2⟩ := by
    show saveHistory s2 C.elements C.selectedId = _
    rw [e2]
    simp [saveHistory, map_deepCopyElement]
  have eu1 : u1 = ⟨B.elements, B.selectedId,
      [⟨A.elements, A.selectedId⟩, ⟨B.elements, B.selectedId⟩,
       ⟨C.elements, C.selectedId⟩], 1⟩ := by
    show undo s3 = _
    rw [e3]
    simp [undo]
  have eu2 : u2 = ⟨A.elements, A.selectedId,
      [⟨A.elements, A.selectedId⟩, ⟨B.elements, B.selectedId⟩,
       ⟨C.elements, C.selectedId⟩], 0⟩ := by
    show undo u1 = _
    rw [eu1]
    simp [undo]
  refine ⟨⟨by rw [eu1], by rw [eu1]⟩, ⟨by rw [eu2], by rw [eu2]⟩, ?_,
    ⟨?_, ?_, ?_⟩, ?_, ?_⟩
  · rw [eu2]
    simp [undo]
  · rw [eu2]
    simp [redo]
  · rw [eu2]
    simp [redo]
  · rw [eu2]
    simp [redo]
  · rw [eu2]
    simp [saveHistory, map_deepCopyElement]
  · rw [eu2]
    simp [saveHistory, map_deepCopyElement, redo]

/-- Witness for `history_push_undo_redo_contract`: the hypothesis-bearing
parts instantiated at a concrete state. -/
theorem history_push_undo_redo_contract_witness :
    undo (⟨[], none, [⟨[], none⟩, ⟨[], some "x"⟩], 1⟩ : EditorState)
        = ⟨[], none, [⟨[], none⟩, ⟨[], some "x"⟩], 0⟩
    ∧ redo (⟨[], none, [⟨[], none⟩, ⟨[], some "x"⟩], 0⟩ : EditorState)
        = ⟨[], some "x", [⟨[], none⟩, ⟨[], some "x"⟩], 1⟩ := by
  constructor
  · exact history_push_undo_redo_contract.2.2.1
      ⟨[], none, [⟨[], none⟩, ⟨[], some "x"⟩], 1⟩ ⟨[], none⟩
      (by decide) (by decide)
  · exact history_push_undo_redo_contract.2.2.2.2.1
      ⟨[], none, [⟨[], none⟩, ⟨[], some "x"⟩], 0⟩ ⟨[], some "x"⟩
      (by decide) (by decide)

theorem undo_history (s : EditorState) : (undo s).history = s.history := by
  unfold undo
  split
  · cases h : s.history[(s.historyIndex - 1).toNat]? <;> simp [h]
  · rfl

theorem redo_history (s : EditorState) : (redo s).history = s.history := by
  unfold redo
  split
  · cases h : s.history[(s.historyIndex + 1).toNat]? <;> simp [h]
  · rfl

theorem updateProperty_history (s : EditorState) (prop val : String) :
    (updateProperty s prop val).history = s.history := by
  unfold updateProperty
  cases s.selectedId <;> rfl

theorem dragMove_history (s : EditorState) (px py : Int) :
    (dragMove s px py).history = s.history := by
  unfold dragMove
  cases s.selectedId <;> rfl

/-- C6: every push stores an independent copy holding the pushed value
(`JSON` deep copy is the identity on the embedded values, and the stored
snapshot is readable back unchanged), and no later editor command alters a
history entry at or below the current index: mutating the live document
can never retroactively change a stored snapshot. -/
theorem history_snapshots_immutable :
    (∀ els : List Element, els.map deepCopyElement = els)
  ∧ (∀ (s : EditorState) (els : List Element) (sid : Option String),
        (saveHistory s els sid).history.getLast? = some ⟨els, sid⟩)
  ∧ ∀ (s : EditorState) (op : EditorOp) (i : Nat),
      i < s.history.length → (i : Int) ≤ s.historyIndex →
      (applyOp s op).history[i]? = s.history[i]? := by
  refine ⟨map_deepCopyElement, saveHistory_getLast, ?_⟩
  intro s op i h1 h2
  cases op with
  | importOp html now => exact saveHistory_preserves _ _ _ i h1 h2
  | addOp variant now => exact saveHistory_preserves _ _ _ i h1 h2
  | deleteOp confirmed =>
    show (deleteElement s confirmed).history[i]? = _
    unfold deleteElement
    cases hsel : s.selectedId with
    | none => rfl
    | some sid =>
      cases confirmed with
      | false => rfl
      | true =>
        simp only [if_pos]
        exact saveHistory_preserves _ _ _ i h1 h2
  | updateOp prop val => rw [show (applyOp s (.updateOp prop val)).history
      = s.history from updateProperty_history s prop val]
  | dragMoveOp px py => rw [show (applyOp s (.dragMoveOp px py)).history
      = s.history from dragMove_history s px py]
  | dragEndOp => exact saveHistory_preserves _ _ _ i h1 h2
  | undoOp => rw [show (applyOp s .undoOp).history = s.history from undo_history s]
  | redoOp => rw [show (applyOp s .redoOp).history = s.history from redo_history s]

/-- Witness for `history_snapshots_immutable` at a concrete state and
operation. -/
theorem history_snapshots_immutable_witness :
    (0 : Nat) < (⟨[], some "a", [⟨[], none⟩], 0⟩ : EditorState).history.length
  ∧ ((0 : Nat) : Int) ≤ (⟨[], some "a", [⟨[], none⟩], 0⟩ : EditorState).historyIndex
  ∧ (applyOp ⟨[], some "a", [⟨[], none⟩], 0⟩ (.updateOp "left" "5px")).history[0]?
      = (⟨[], some "a", [⟨[], none⟩], 0⟩ : EditorState).history[0]? :=
  ⟨by decide, by decide,
    history_snapshots_immutable.2.2 ⟨[], some "a", [⟨[], none⟩], 0⟩
      (.updateOp "left" "5px") 0 (by decide) (by decide)⟩

/-- C8: with a selection that identifies an element (unique ids), a
confirmed delete removes exactly that element, keeps the order of the
rest, and clears the selection in the same update. -/
theorem deleteElement_removes_selected (s : EditorState) (sid : String)
    (hsel : s.selectedId = some sid)
    (hmem : sid ∈ s.elements.map Element.id)
    (hnd : (s.elements.map Element.id).Nodup) :
    ∃ l1 el l2, s.elements = l1 ++ el :: l2 ∧ el.id = sid
      ∧ (deleteElement s true).elements = l1 ++ l2
      ∧ (deleteElement s true).selectedId = none := by
  obtain ⟨el, helm, hid⟩ := List.mem_map.mp hmem
  obtain ⟨l1, l2, hsplit⟩ := List.append_of_mem helm
  rw [hsplit] at hnd
  rw [List.map_append, List.map_cons] at hnd
  obtain ⟨hn1, hn2, hdisj⟩ := List.nodup_append.mp hnd
  have hne1 : ∀ a ∈ l1, ¬ a.id = sid := by
    intro a ha heq
    exact hdisj (List.mem_map_of_mem Element.id ha)
      (by rw [heq, ← hid]; exact List.mem_cons_self _ _)
  have hne2 : ∀ a ∈ l2, ¬ a.id = sid := by
    intro a ha heq
    apply (List.nodup_cons.mp hn2).1
    rw [hid, ← heq]
    exact List.mem_map_of_mem Element.id ha
  refine ⟨l1, el, l2, hsplit, hid, ?_, ?_⟩
  · show (deleteElement s true).elements = _
    unfold deleteElement
    rw [hsel]
    simp only [if_pos]
    show s.elements.filter _ = _
    rw [hsplit, List.filter_append, List.filter_cons]
    rw [List.filter_eq_self.mpr (by intro a ha; simpa using hne1 a ha),
        List.filter_eq_self.mpr (by intro a ha; simpa using hne2 a ha)]
    simp [hid]
  · unfold deleteElement
    rw [hsel]
    rfl

/-- Witness for `deleteElement_removes_selected` at a concrete state. -/
theorem deleteElement_removes_selected_witness :
    ∃ l1 el l2,
      (⟨[⟨"a", "text", "x", "", "", "p", []⟩, ⟨"b", "text", "y", "", "", "p", []⟩],
        some "a", [], -1⟩ : EditorState).elements = l1 ++ el :: l2
      ∧ el.id = "a"
      ∧ (deleteElement ⟨[⟨"a", "text", "x", "", "", "p", []⟩,
          ⟨"b", "text", "y", "", "", "p", []⟩], some "a", [], -1⟩ true).elements
          = l1 ++ l2
      ∧ (deleteElement ⟨[⟨"a", "text", "x", "", "", "p", []⟩,
          ⟨"b", "text", "y", "", "", "p", []⟩], some "a", [], -1⟩ true).selectedId
          = none :=
  deleteElement_removes_selected _ "a" rfl (by decide) (by decide)

/-- C9 counterexample: with a selection that matches no element, a
confirmed `deleteElement` is not a no-op — it clears the selection and
pushes a history entry even though the element list is unchanged. -/
theorem deleteElement_dangling_cex :
    let cs : EditorState :=
      ⟨[⟨"a", "text", "x", "", "", "p", []⟩], some "ghost", [], -1⟩
    ("ghost" ∉ cs.elements.map Element.id)
    ∧ (deleteElement cs true).selectedId ≠ cs.selectedId
    ∧ (deleteElement cs true).history ≠ cs.history := by decide

/-- C9 amended: with no selection, `deleteElement` and `updateProperty`
are no-ops; with a selection matching no element, `updateProperty` is a
no-op, but a confirmed `deleteElement` keeps the element list (as a value)
while clearing the selection and pushing a history snapshot. -/
theorem mutation_missing_target_spec :
    (∀ (s : EditorState) (confirmed : Bool) (prop val : String),
        s.selectedId = none →
        deleteElement s confirmed = s ∧ updateProperty s prop val = s)
  ∧ (∀ (s : EditorState) (sid prop val : String),
        s.selectedId = some sid → sid ∉ s.elements.map Element.id →
        updateProperty s prop val = s)
  ∧ (∀ (s : EditorState) (sid : String),
        s.selectedId = some sid → sid ∉ s.elements.map Element.id →
        (deleteElement s true).elements = s.elements
        ∧ (deleteElement s true).selectedId = none
        ∧ (deleteElement s true).history
            = s.history.take (s.historyIndex + 1).toNat ++ [⟨s.elements, none⟩]) := by
  refine ⟨?_, ?_, ?_⟩
  · intro s confirmed prop val h
    constructor
    · unfold deleteElement
      rw [h]
    · unfold updateProperty
      rw [h]
  · intro s sid prop val hsel hmiss
    have hne : ∀ el ∈ s.elements, ¬ el.id = sid := by
      intro el hel heq
      exact hmiss (heq ▸ List.mem_map_of_mem Element.id hel)
    have hmap : s.elements.map (fun el =>
        if el.id = sid then
          if prop = "content" ∨ prop = "src" ∨ prop = "alt" then setField el prop val
          else { el with style := setStyleKey el.style prop val }
        else el) = s.elements := by
      have h2 : s.elements.map (fun el =>
          if el.id = sid then
            if prop = "content" ∨ prop = "src" ∨ prop = "alt" then setField el prop val
            else { el with style := setStyleKey el.style prop val }
          else el) = s.elements.map id :=
        List.map_congr_left (fun a ha => by simp [hne a ha])
      rw [h2, List.map_id]
    simp only [updateProperty, hsel]
    rw [hmap, ← hsel]
  · intro s sid hsel hmiss
    have hne : ∀ el ∈ s.elements, ¬ el.id = sid := by
      intro el hel heq
      exact hmiss (heq ▸ List.mem_map_of_mem Element.id hel)
    have hfil : s.elements.filter (fun el => ¬ el.id = sid) = s.elements :=
      List.filter_eq_self.mpr (by intro a ha; simpa using hne a ha)
    unfold deleteElement
    rw [hsel]
    simp only [if_pos]
    refine ⟨?_, rfl, ?_⟩
    · show s.elements.filter _ = s.elements
      exact hfil
    · rw [saveHistory_history]
      show _ ++ [(⟨s.elements.filter _, none⟩ : Snapshot)] = _
      rw [hfil]

/-- Witness for `mutation_missing_target_spec` at concrete states. -/
theorem mutation_missing_target_spec_witness :
    updateProperty (⟨[⟨"a", "text", "x", "", "", "p", []⟩], some "ghost", [], -1⟩ :
        EditorState) "content" "z"
      = (⟨[⟨"a", "text", "x", "", "", "p", []⟩], some "ghost", [], -1⟩ : EditorState)
  ∧ deleteElement (⟨[], none, [], -1⟩ : EditorState) true = ⟨[], none, [], -1⟩ :=
  ⟨mutation_missing_target_spec.2.1 _ "ghost" "content" "z" rfl (by decide),
   (mutation_missing_target_spec.1 ⟨[], none, [], -1⟩ true "x" "y" rfl).1⟩

theorem setStyleKey_find (st : List (String × String)) (p v : String) :
    ((setStyleKey st p v).find? (fun kv => kv.1 = p)).map Prod.snd = some v := by
  induction st with
  | nil => simp [setStyleKey]
  | cons kv rest ih =>
    by_cases h : kv.1 = p
    · simp [setStyleKey, h]
    · cases kv with
      | mk k' v' =>
        simp only [setStyleKey]
        rw [if_neg (by simpa using h)]
        simp only [List.find?_cons]
        rw [show (decide (k' = p)) = false by simpa using h]
        exact ih

/-- C10: with a selection, `updateProperty` rewrites only the selected
element — top-level `content`/`src`/`alt` for those property names, the
style map entry otherwise (readable back as `val`) — and leaves every
other element, the selection, and the history sequence and index
unchanged; it never pushes a history entry. -/
theorem updateProperty_spec (s : EditorState) (sid prop val : String)
    (hsel : s.selectedId = some sid) :
    (updateProperty s prop val).history = s.history
  ∧ (updateProperty s prop val).historyIndex = s.historyIndex
  ∧ (updateProperty s prop val).selectedId = s.selectedId
  ∧ (updateProperty s prop val).elements.length = s.elements.length
  ∧ (∀ (st : List (String × String)) (p v : String),
      ((setStyleKey st p v).find? (fun kv => kv.1 = p)).map Prod.snd = some v)
  ∧ ∀ (i : Nat) (el : Element), s.elements[i]? = some el →
      (¬ el.id = sid → (updateProperty s prop val).elements[i]? = some el)
    ∧ (el.id = sid →
        (prop = "content" →
            (updateProperty s prop val).elements[i]? = some { el with content := val })
      ∧ (prop = "src" →
            (updateProperty s prop val).elements[i]? = some { el with src := val })
      ∧ (prop = "alt" →
            (updateProperty s prop val).elements[i]? = some { el with alt := val })
      ∧ (¬ (prop = "content" ∨ prop = "src" ∨ prop = "alt") →
            (updateProperty s prop val).elements[i]?
              = some { el with style := setStyleKey el.style prop val })) := by
  refine ⟨updateProperty_history s prop val, ?_, ?_, ?_, setStyleKey_find, ?_⟩
  · simp [updateProperty, hsel]
  · simp [updateProperty, hsel]
  · simp [updateProperty, hsel]
  · intro i el h
    constructor
    · intro hne
      simp only [updateProperty, hsel, List.getElem?_map, h, Option.map_some']
      rw [if_neg hne]
    · intro heq
      refine ⟨?_, ?_, ?_, ?_⟩
      · intro hp
        simp only [updateProperty, hsel, List.getElem?_map, h, Option.map_some']
        rw [if_pos heq, if_pos (by left; exact hp)]
        simp [setField, hp]
      · intro hp
        simp only [updateProperty, hsel, List.getElem?_map, h, Option.map_some']
        rw [if_pos heq, if_pos (by right; left; exact hp)]
        by_cases hc : prop = "content"
        · rw [hp] at hc
          simp at hc
        · simp [setField, hc, hp]
      · intro hp
        simp only [updateProperty, hsel, List.getElem?_map, h, Option.map_some']
        rw [if_pos heq, if_pos (by right; right; exact hp)]
        by_cases hc : prop = "content"
        · rw [hp] at hc
          simp at hc
        · by_cases hs2 : prop = "src"
          · rw [hp] at hs2
            simp at hs2
          · simp [setField, hc, hs2]
      · intro hp
        simp only [updateProperty, hsel, List.getElem?_map, h, Option.map_some']
        rw [if_pos heq, if_neg hp]

/-- Witness for `updateProperty_spec` at a concrete state. -/
theorem updateProperty_spec_witness :
    (updateProperty (⟨[⟨"a", "text", "x", "", "", "p", [("left", "1px")]⟩],
        some "a", [], -1⟩ : EditorState) "left" "9px").history = []
  ∧ (updateProperty (⟨[⟨"a", "text", "x", "", "", "p", [("left", "1px")]⟩],
        some "a", [], -1⟩ : EditorState) "left" "9px").elements.length = 1 := by
  have h := updateProperty_spec
    ⟨[⟨"a", "text", "x", "", "", "p", [("left", "1px")]⟩], some "a", [], -1⟩
    "a" "left" "9px" rfl
  exact ⟨h.1, h.2.2.2.1⟩

/-! ### Parser style theorems (C4, C5) -/

set_option maxRecDepth 40000

theorem setStyleKey_find_ne (st : List (String × String)) (k' v k : String)
    (h : ¬ k' = k) :
    (setStyleKey st k' v).find? (fun kv => kv.1 = k)
      = st.find? (fun kv => kv.1 = k) := by
  induction st with
  | nil => simp [setStyleKey, h]
  | cons kv rest ih =>
    cases kv with
    | mk a b =>
      by_cases ha : a = k'
      · simp only [setStyleKey]
        rw [if_pos ha]
        simp only [List.find?_cons]
        rw [show (decide (k' = k)) = false by simpa using h,
            show (decide (a = k)) = false by simp [ha]; simpa using h]
      · simp only [setStyleKey]
        rw [if_neg ha]
        simp only [List.find?_cons]
        by_cases hak : a = k
        · rw [show (decide (a = k)) = true by simpa using hak]
        · rw [show (decide (a = k)) = false by simpa using hak]
          exact ih

/-- C4 counterexample: parsing a poster whose element carries a different
inline `position` value does not yield `position: absolute` — the inline
value wins (source line 73). -/
theorem parse_inline_position_cex :
    (HTMLParser.parse
        "<div class=\"poster\"><p style=\"position: relative\">x</p></div>" 0).map
        (fun el => (el.style.find? (fun kv => kv.1 = "position")).map Prod.snd)
      = [some "relative"]
  ∧ ¬ (some "relative" : Option String) = some "absolute" := by decide

/-- C4 amended: elements created by `addElement` always carry
`position: absolute`; `parseNode` assigns `"absolute"` exactly when the
source element has no inline `position` (the computed style of an
unrendered element is empty), and otherwise keeps the inline value. -/
theorem position_absolute_sources :
    (∀ (s : EditorState) (variant : String) (now : Nat),
        ∃ newEl, (addElement s variant now).elements = s.elements ++ [newEl]
          ∧ (newEl.style.find? (fun kv => kv.1 = "position")).map Prod.snd
              = some "absolute")
  ∧ (∀ (now i : Nat) (t : String) (attrs : List (String × String))
        (kids : List Node),
        ((HTMLParser.parseNode now (Node.elem t attrs kids) i).style.find?
            (fun kv => kv.1 = "position")).map Prod.snd
          = some (jsOr (inlineGet attrs "position") "absolute")) := by
  constructor
  · intro s variant now
    unfold addElement
    by_cases hv : variant = "text"
    · rw [if_pos hv]
      exact ⟨_, rfl, by simp⟩
    · rw [if_neg hv]
      exact ⟨_, rfl, by simp⟩
  · intro now i t attrs kids
    simp only [HTMLParser.parseNode]
    by_cases himg : tagNameOf t = "IMG"
    · rw [if_pos himg]
      rw [setStyleKey_find_ne _ _ _ _ (by decide),
          setStyleKey_find_ne _ _ _ _ (by decide)]
      simp [computedGet, jsOr]
    · rw [if_neg himg]
      simp [computedGet, jsOr]

/-- Witness for `position_absolute_sources` at a concrete state and node. -/
theorem position_absolute_sources_witness :
    (∃ newEl,
        (addElement (⟨[], none, [], -1⟩ : EditorState) "text" 5).elements
            = [] ++ [newEl]
        ∧ (newEl.style.find? (fun kv => kv.1 = "position")).map Prod.snd
            = some "absolute")
  ∧ ((HTMLParser.parseNode 5 (Node.elem "p" [] []) 0).style.find?
        (fun kv => kv.1 = "position")).map Prod.snd
      = some (jsOr (inlineGet [] "position") "absolute") :=
  ⟨position_absolute_sources.1 ⟨[], none, [], -1⟩ "text" 5,
   position_absolute_sources.2 5 0 "p" [] []⟩

/-- C5 counterexample: an `img` child with an explicit inline height still
parses with `height: "auto"` — the source (line 96) overwrites height
unconditionally. -/
theorem parse_img_height_cex :
    (HTMLParser.parse
        "<div class=\"poster\"><img style=\"height: 50px\"></div>" 0).map
        (fun el => (el.style.find? (fun kv => kv.1 = "height")).map Prod.snd)
      = [some "auto"]
  ∧ inlineGet [("style", "height: 50px")] "height" = "50px" := by decide

/-- C5 amended: a parsed `img` element takes `src`/`alt` from the
attributes (empty string when absent) and defaults `width` to `"100px"`
exactly when no inline width is set, but its `height` is always `"auto"`,
even when an explicit height is set on the source element. -/
theorem parseNode_img_spec (now i : Nat) (t : String)
    (attrs : List (String × String)) (kids : List Node)
    (himg : tagNameOf t = "IMG") :
    (HTMLParser.parseNode now (Node.elem t attrs kids) i).type = "image"
  ∧ (HTMLParser.parseNode now (Node.elem t attrs kids) i).src
      = (getAttrVal attrs "src").getD ""
  ∧ (HTMLParser.parseNode now (Node.elem t attrs kids) i).alt
      = (getAttrVal attrs "alt").getD ""
  ∧ ((HTMLParser.parseNode now (Node.elem t attrs kids) i).style.find?
      (fun kv => kv.1 = "width")).map Prod.snd
      = some (jsOr (inlineGet attrs "width") "100px")
  ∧ ((HTMLParser.parseNode now (Node.elem t attrs kids) i).style.find?
      (fun kv => kv.1 = "height")).map Prod.snd = some "auto" := by
  simp only [HTMLParser.parseNode]
  rw [if_pos himg]
  refine ⟨rfl, rfl, rfl, ?_, ?_⟩
  · rw [setStyleKey_find_ne _ _ _ _ (by decide)]
    exact setStyleKey_find _ _ _
  · exact setStyleKey_find _ _ _

/-- Witness for `parseNode_img_spec` at a concrete node. -/
theorem parseNode_img_spec_witness :
    (HTMLParser.parseNode 3 (Node.elem "img" [("src", "a.png")] []) 0).type
        = "image"
  ∧ (HTMLParser.parseNode 3 (Node.elem "img" [("src", "a.png")] []) 0).src
        = (getAttrVal [("src", "a.png")] "src").getD ""
  ∧ (HTMLParser.parseNode 3 (Node.elem "img" [("src", "a.png")] []) 0).alt
        = (getAttrVal [("src", "a.png")] "alt").getD ""
  ∧ ((HTMLParser.parseNode 3 (Node.elem "img" [("src", "a.png")] []) 0).style.find?
        (fun kv => kv.1 = "width")).map Prod.snd
        = some (jsOr (inlineGet [("src", "a.png")] "width") "100px")
  ∧ ((HTMLParser.parseNode 3 (Node.elem "img" [("src", "a.png")] []) 0).style.find?
        (fun kv => kv.1 = "height")).map Prod.snd = some "auto" :=
  parseNode_img_spec 3 0 "img" [("src", "a.png")] [] (by decide)


mutual

def dangerFreeNode : Node → Bool
  | .text _ => true
  | .elem t _ cs => !(decide (t ∈ dangerousTags)) && dangerFreeForest cs

def dangerFreeForest : List Node → Bool
  | [] => true
  | n :: ns => dangerFreeNode n && dangerFreeForest ns

end

def attrOk (p : String × String) : Bool :=
  !(startsWithChars ("on").data p.1.data)
    && !(decide (p.1 ∈ urlAttrs) && hasJsUrl p.2)

mutual

def attrsCleanNode : Node → Bool
  | .text _ => true
  | .elem _ a cs => a.all attrOk && attrsCleanForest cs

def attrsCleanForest : List Node → Bool
  | [] => true
  | n :: ns => attrsCleanNode n && attrsCleanForest ns

end

theorem dangerFreeForest_append (a b : List Node) :
    dangerFreeForest (a ++ b) = (dangerFreeForest a && dangerFreeForest b) := by
  induction a with
  | nil => simp [dangerFreeForest]
  | cons n ns ih => simp [dangerFreeForest, ih, Bool.and_assoc]

theorem removeDangerous_dangerFree :
    (∀ n, dangerFreeForest (removeDangerousNode n) = true)
  ∧ ∀ ns, dangerFreeForest (removeDangerousForest ns) = true := by
  refine removeDangerousNode.mutual_induct
    (fun n => dangerFreeForest (removeDangerousNode n) = true)
    (fun ns => dangerFreeForest (removeDangerousForest ns) = true)
    ?_ ?_ ?_ ?_ ?_
  · intro s
    simp [removeDangerousNode, dangerFreeForest, dangerFreeNode]
  · intro t a cs hmem
    simp [removeDangerousNode, hmem, dangerFreeForest]
  · intro t a cs hmem ih
    simp [removeDangerousNode, hmem, dangerFreeForest, dangerFreeNode, ih]
  · simp [removeDangerousForest, dangerFreeForest]
  · intro n ns ih1 ih2
    simp [removeDangerousForest, dangerFreeForest_append, ih1, ih2]



theorem cleanAttrs_allOk (a : List (String × String)) :
    (cleanAttrs a).all attrOk = true := by
  rw [List.all_eq_true]
  intro p hp
  unfold cleanAttrs at hp
  have h2 := List.mem_filter.mp hp
  have h1 := List.mem_filter.mp h2.1
  unfold attrOk
  rw [Bool.and_eq_true]
  constructor
  · simpa using h1.2
  · simpa using h2.2

theorem attrsCleanForest_cleanAttrs :
    (∀ n, attrsCleanNode (cleanAttrsNode n) = true)
  ∧ ∀ ns, attrsCleanForest (cleanAttrsForest ns) = true := by
  refine cleanAttrsNode.mutual_induct
    (fun n => attrsCleanNode (cleanAttrsNode n) = true)
    (fun ns => attrsCleanForest (cleanAttrsForest ns) = true)
    ?_ ?_ ?_ ?_
  · intro s
    simp [cleanAttrsNode, attrsCleanNode]
  · intro t a cs ih
    simp [cleanAttrsNode, attrsCleanNode, cleanAttrs_allOk, ih]
  · simp [cleanAttrsForest, attrsCleanForest]
  · intro n ns ih1 ih2
    simp [cleanAttrsForest, attrsCleanForest, ih1, ih2]

theorem cleanAttrs_dangerFree :
    (∀ n, dangerFreeNode n = true → dangerFreeNode (cleanAttrsNode n) = true)
  ∧ ∀ ns, dangerFreeForest ns = true → dangerFreeForest (cleanAttrsForest ns) = true := by
  refine cleanAttrsNode.mutual_induct
    (fun n => dangerFreeNode n = true → dangerFreeNode (cleanAttrsNode n) = true)
    (fun ns => dangerFreeForest ns = true → dangerFreeForest (cleanAttrsForest ns) = true)
    ?_ ?_ ?_ ?_
  · intro s _
    simp [cleanAttrsNode, dangerFreeNode]
  · intro t a cs ih h
    simp only [dangerFreeNode, Bool.and_eq_true] at h
    simp [cleanAttrsNode, dangerFreeNode, h.1, ih h.2]
  · simp [cleanAttrsForest]
  · intro n ns ih1 ih2 h
    simp only [dangerFreeForest, Bool.and_eq_true] at h
    simp [cleanAttrsForest, dangerFreeForest, ih1 h.1, ih2 h.2]

theorem sanitize_clean_id :
    (∀ n, dangerFreeNode n = true → attrsCleanNode n = true →
        removeDangerousNode n = [n] ∧ cleanAttrsNode n = n)
  ∧ ∀ ns, dangerFreeForest ns = true → attrsCleanForest ns = true →
        removeDangerousForest ns = ns ∧ cleanAttrsForest ns = ns := by
  refine cleanAttrsNode.mutual_induct
    (fun n => dangerFreeNode n = true → attrsCleanNode n = true →
        removeDangerousNode n = [n] ∧ cleanAttrsNode n = n)
    (fun ns => dangerFreeForest ns = true → attrsCleanForest ns = true →
        removeDangerousForest ns = ns ∧ cleanAttrsForest ns = ns)
    ?_ ?_ ?_ ?_
  · intro s _ _
    exact ⟨rfl, rfl⟩
  · intro t a cs ih hd hc
    simp only [dangerFreeNode, Bool.and_eq_true] at hd
    simp only [attrsCleanNode, Bool.and_eq_true] at hc
    obtain ⟨hrec, hcln⟩ := ih hd.2 hc.2
    have hattrs : cleanAttrs a = a := by
      unfold cleanAttrs
      rw [List.filter_eq_self.mpr, List.filter_eq_self.mpr]
      · intro p hp
        have := List.all_eq_true.mp hc.1 p hp
        unfold attrOk at this
        rw [Bool.and_eq_true] at this
        simpa using this.1
      · intro p hp
        have hpa := (List.mem_filter.mp hp).1
        have := List.all_eq_true.mp hc.1 p hpa
        unfold attrOk at this
        rw [Bool.and_eq_true] at this
        simpa using this.2
    constructor
    · unfold removeDangerousNode
      rw [if_neg (by simpa using hd.1), hrec]
    · unfold cleanAttrsNode
      rw [hattrs, hcln]
  · intro _ _
    exact ⟨rfl, rfl⟩
  · intro n ns ih1 ih2 hd hc
    simp only [dangerFreeForest, Bool.and_eq_true] at hd
    simp only [attrsCleanForest, Bool.and_eq_true] at hc
    obtain ⟨h1a, h1b⟩ := ih1 hd.1 hc.1
    obtain ⟨h2a, h2b⟩ := ih2 hd.2 hc.2
    constructor
    · unfold removeDangerousForest
      rw [h1a, h2a]
      rfl
    · unfold cleanAttrsForest
      rw [h1b, h2b]


/-- C3: `sanitize` serializes the tree obtained by removing every subtree
rooted at a dangerous tag (`script, iframe, object, embed, link, style`)
and then deleting, on every remaining element, the attributes whose name
starts with `on` and the `href`/`src`/`action` attributes whose value
contains `javascript:` case-insensitively; the cleaned tree contains no
dangerous element and no such attribute, and a tree already free of both
is passed through unchanged (benign markup left intact). -/
theorem sanitize_spec :
    (∀ html : String,
        HTMLSanitizer.sanitize html
          = serializeForest (cleanAttrsForest (removeDangerousForest
              (parseHTMLForest html))))
  ∧ (∀ html : String,
        dangerFreeForest (cleanAttrsForest (removeDangerousForest
            (parseHTMLForest html))) = true)
  ∧ (∀ html : String,
        attrsCleanForest (cleanAttrsForest (removeDangerousForest
            (parseHTMLForest html))) = true)
  ∧ (∀ ns : List Node, dangerFreeForest ns = true → attrsCleanForest ns = true →
        cleanAttrsForest (removeDangerousForest ns) = ns) := by
  refine ⟨fun _ => rfl, ?_, ?_, ?_⟩
  · intro html
    exact cleanAttrs_dangerFree.2 _ (removeDangerous_dangerFree.2 _)
  · intro html
    exact attrsCleanForest_cleanAttrs.2 _
  · intro ns hd hc
    rw [(sanitize_clean_id.2 ns hd hc).1, (sanitize_clean_id.2 ns hd hc).2]

/-- Witness for `sanitize_spec`: an adversarial input is cleaned, and a
benign forest passes through unchanged. -/
theorem sanitize_spec_witness :
    dangerFreeForest (cleanAttrsForest (removeDangerousForest (parseHTMLForest
        "<div onclick=\"evil()\"><script>bad</script><a href=\"JavaScript:alert(1)\">x</a></div>")))
      = true
  ∧ cleanAttrsForest (removeDangerousForest
        [Node.elem "p" [("class", "x")] [Node.text "hi"]])
      = [Node.elem "p" [("class", "x")] [Node.text "hi"]] :=
  ⟨sanitize_spec.2.1
      "<div onclick=\"evil()\"><script>bad</script><a href=\"JavaScript:alert(1)\">x</a></div>",
   sanitize_spec.2.2.2 [Node.elem "p" [("class", "x")] [Node.text "hi"]]
      (by decide) (by decide)⟩

/-! ### Round-trip infrastructure (C1) -/

end PosterEditor
